import Mathlib

/-!
Verification development for the Myrient-Can-FixDAT retrieval pipeline.

The definitions below are shallow embeddings of functions from
`src/CanFixDAT.py` and `src/esde_rom_formatter_core.py`.  File contents are
abstracted to byte counts or opaque string contents; network and subprocess
effects are abstracted to explicit event lists or outcome oracles supplied as
parameters.  Each definition names the source function it embeds.
-/

namespace CanFixDAT

/-! ### download_file (CanFixDAT.py lines 762-878)

`download_file` streams a response body into `<dest>.tmp` in 8192-byte chunks,
checking the `should_stop` callback before every chunk write, and publishes the
result with an atomic `temp_path.replace(output_path)` only after the whole
body was written.  We model the body as a list of events: a delivered chunk of
`n` bytes, a network error raised by the iterator, or a filesystem error raised
by the write.  File states are byte counts (`Option Nat`: `none` = absent). -/

inductive DlEv where
  | chunk (n : Nat)
  | netErr
  | fsErr
  deriving DecidableEq

inductive DlOutcome where
  | success
  | stopped
  | netFail
  | fsFail
  deriving DecidableEq

structure DlState where
  temp : Option Nat
  dest : Option Nat
  deriving DecidableEq

/-- Total number of body bytes carried by chunk events. -/
def dlTotalBytes : List DlEv → Nat
  | [] => 0
  | .chunk n :: r => n + dlTotalBytes r
  | .netErr :: r => dlTotalBytes r
  | .fsErr :: r => dlTotalBytes r

/-- The chunk loop of `download_file`, from the `with open(temp_path, 'wb')`
block through the exception handlers.  `stop i` is the value of
`should_stop()` polled before processing the `i`-th event.  Returns the
outcome, the final filesystem state, and the list of observable states (one
after each completed step). -/
def dlGo (stop : Nat → Bool) : List DlEv → Nat → DlState → DlOutcome × DlState × List DlState
  | [], _, st =>
      -- body exhausted: atomic replace temp -> dest, temp gone
      let fin : DlState := { temp := none, dest := st.temp }
      (.success, fin, [fin])
  | .chunk n :: rest, i, st =>
      if stop i then
        -- StopDownload handler: best-effort unlink of temp only
        let fin : DlState := { st with temp := none }
        (.stopped, fin, [fin])
      else
        let st2 : DlState := { st with temp := some (st.temp.getD 0 + n) }
        let r := dlGo stop rest (i + 1) st2
        (r.1, r.2.1, st2 :: r.2.2)
  | .netErr :: _, _, st =>
      -- requests.Timeout / ConnectionError / HTTPError handler: unlink temp
      let fin : DlState := { st with temp := none }
      (.netFail, fin, [fin])
  | .fsErr :: _, _, _ =>
      -- OSError handler: unlink temp and also unlink the destination
      let fin : DlState := { temp := none, dest := none }
      (.fsFail, fin, [fin])

/-- `download_file` itself: opens the temp file (truncating it to 0 bytes),
runs the chunk loop, and returns outcome, final state and state trace. -/
def downloadFile (stop : Nat → Bool) (dest0 : Option Nat) (evs : List DlEv) :
    DlOutcome × DlState × List DlState :=
  let st0 : DlState := { temp := some 0, dest := dest0 }
  let r := dlGo stop evs 0 st0
  (r.1, r.2.1, st0 :: r.2.2)

/-! ### DownloadWorker stop flags (CanFixDAT.py lines 2364-2385, 3264, 3359,
3404-3409, 3469-3474) -/

structure WorkerFlags where
  stopRequested : Bool
  forceStopRequested : Bool
  deriving DecidableEq

/-- `DownloadWorker.request_stop`. -/
def requestStop (w : WorkerFlags) : WorkerFlags :=
  { w with stopRequested := true }

/-- `DownloadWorker.request_force_stop`. -/
def requestForceStop (_w : WorkerFlags) : WorkerFlags :=
  { stopRequested := true, forceStopRequested := true }

/-- The `should_stop` lambda passed to `download_file` by `download_one`:
`lambda: self._force_stop_requested or self.isInterruptionRequested()`. -/
def shouldStopSignal (w : WorkerFlags) (interruption : Bool) : Bool :=
  w.forceStopRequested || interruption

/-- The guard of the task-submission loops in `_download_with_gui_updates`:
`idx < total_games and len(active) < max_workers and not self._stop_requested
and not self.isInterruptionRequested()`. -/
def canSubmitNext (w : WorkerFlags) (interruption : Bool)
    (idx totalGames active maxWorkers : Nat) : Bool :=
  decide (idx < totalGames) && decide (active < maxWorkers) &&
    !w.stopRequested && !interruption

/-! ### _run_chd_conversion per-file loop (CanFixDAT.py lines 2660-2760)

For one source file, `_run_chd_conversion` tries each candidate chdman mode in
order.  Before every attempt it deletes any leftover output
(`_cleanup_partial_output`, line 2698); during the `communicate(timeout=0.2)`
wait loop it polls the force-stop flag and, when set, kills the process and
deletes its output (lines 2713-2724); a mode counts as successful exactly when
`proc.returncode == 0 and output_file.exists()` (line 2729); a failed attempt
has its output deleted again (line 2748) before the next mode is tried.
The external converter is abstracted as an oracle `conv` giving, per mode, the
exit code, the state of the output path when the process ends, and whether the
process finishes before the first 0.2s wait poll. -/

inductive OutState where
  | absent
  | incompleteOut
  | complete
  deriving DecidableEq

structure ConvOut where
  returncode : Int
  out : OutState
  finishesBeforePoll : Bool
  deriving DecidableEq

/-- The success criterion of line 2729: exit code zero and output present. -/
def chdSuccessCheck (c : ConvOut) : Bool :=
  c.returncode == 0 && c.out != OutState.absent

/-- The fallback loop over `cmd_order` for one source file.  The second
component of the result is the state of the output path when the loop ends. -/
def runChdFromState (force : Bool) (conv : Nat → ConvOut) :
    List Nat → OutState → Bool × OutState
  | [], cur => (false, cur)
  | m :: rest, _ =>
      -- _cleanup_partial_output before the attempt, then run the process
      let c := conv m
      if !c.finishesBeforePoll && force then
        -- forced stop observed at the wait poll: kill + cleanup
        (false, .absent)
      else if chdSuccessCheck c then
        (true, c.out)
      else
        -- non-zero exit (or missing output): cleanup, try next mode
        runChdFromState force conv rest .absent

/-- One file's conversion starting from no output present. -/
def runChdOneFile (force : Bool) (conv : Nat → ConvOut) (modes : List Nat) :
    Bool × OutState :=
  runChdFromState force conv modes .absent

/-! ### match_games_with_myrient (CanFixDAT.py lines 1690-1739)

One remote listing entry, as produced by `_parse_myrient_listing_html`. -/

/-- Python's whitespace class used by `str.strip()` and the `\s` regex class
(ASCII part, which is all the source ever feeds it). -/
def isSpaceChar (c : Char) : Bool :=
  c = ' ' || c = '\t' || c = '\n' || c = '\r' || c = '\x0b' || c = '\x0c'

/-- Python's `str.strip()`. -/
def pyStrip (s : String) : String :=
  String.mk (((s.data.dropWhile isSpaceChar).reverse.dropWhile isSpaceChar).reverse)

structure MEntry where
  filename : String
  url : String
  size : Nat
  is_folder : Bool
  deriving DecidableEq

/-- `re.sub(r"\.[^.]+$", "", fn)` (line 1709): drop a final extension — a dot
followed by one or more non-dot characters at the end of the name. -/
def stripExt (fn : String) : String :=
  let r := fn.data.reverse
  let tl := r.takeWhile (· != '.')
  if tl.length = r.length ∨ tl.length = 0 then fn
  else String.mk ((r.drop (tl.length + 1)).reverse)

/-- One iteration of the `for f in myrient_index` loop building `index_map`
(lines 1704-1715): key is the stem (folders keyed by name as-is, files with
the final extension stripped); a folder replaces a previously stored file. -/
def indexStep (m : String → Option MEntry) (f : MEntry) : String → Option MEntry :=
  let fn := pyStrip f.filename
  if fn = "" then m
  else
    let stem := if f.is_folder then fn else stripExt fn
    if stem = "" then m
    else
      match m stem with
      | none => fun s => if s = stem then some f else m s
      | some existing =>
          if f.is_folder && !existing.is_folder then
            fun s => if s = stem then some f else m s
          else m

/-- The `index_map` dictionary built by `match_games_with_myrient`. -/
def buildIndexMap (index : List MEntry) : String → Option MEntry :=
  index.foldl indexStep (fun _ => none)

structure GameRow where
  gameName : String
  rom : String
  deriving DecidableEq

structure MatchedGame where
  gameName : String
  myrientFilename : String
  downloadUrl : String
  fileSize : Nat
  expectedFilename : String
  is_folder : Bool
  deriving DecidableEq

/-- The matching loop of `match_games_with_myrient` (lines 1696-1739): `None`
when the index is empty, otherwise each game whose trimmed name has an exact
key in `index_map` yields one matched record; unmatched games are dropped. -/
def matchGamesWithMyrient (games : List GameRow) (index : List MEntry) :
    Option (List MatchedGame) :=
  if index = [] then none
  else some (games.filterMap (fun g =>
    let name := pyStrip g.gameName
    if name = "" then none
    else
      match buildIndexMap index name with
      | some best =>
          some ⟨name, best.filename, best.url, best.size, g.rom, best.is_folder⟩
      | none => none))

/-! ### download_one skip-if-exists (CanFixDAT.py lines 3196-3315) and the CLI
folder-member skip (lines 1982-1989)

The filesystem presence checks are abstracted to booleans, and the actual
transfer to an oracle returning (success, bytes). -/

structure FolderMember where
  present : Bool
  size : Nat
  deriving DecidableEq

structure SingleRes where
  success : Bool
  skipped : Bool
  bytes : Nat
  fetchCount : Nat
  deriving DecidableEq

/-- The single-file branch of `download_one`: a pre-existing destination (or
an already-extracted archive) is counted as a skipped success crediting the
full expected size and performing no fetch; otherwise one fetch runs. -/
def downloadOneSingle (destPresent archivePresent : Bool) (fileSize : Nat)
    (fetch : Unit → Bool × Nat) : SingleRes :=
  if destPresent then ⟨true, true, fileSize, 0⟩
  else if archivePresent then ⟨true, true, fileSize, 0⟩
  else
    let r := fetch ()
    ⟨r.1, false, r.2, 1⟩

structure FolderRes where
  folderOk : Bool
  downloaded : Nat
  fetchCount : Nat
  deriving DecidableEq

/-- The member loop of the folder branch of `download_one` (and the CLI loop
at lines 1982-1995): an already-present member credits its size without a
fetch; a missing member is fetched, contributing its bytes on success and
marking the folder failed otherwise. -/
def downloadOneFolderGo (fetch : Nat → Bool × Nat) :
    List FolderMember → Nat → FolderRes
  | [], _ => ⟨true, 0, 0⟩
  | m :: rest, i =>
      if m.present then
        let r := downloadOneFolderGo fetch rest (i + 1)
        ⟨r.folderOk, m.size + r.downloaded, r.fetchCount⟩
      else
        let f := fetch i
        let r := downloadOneFolderGo fetch rest (i + 1)
        ⟨f.1 && r.folderOk, (if f.1 then f.2 else 0) + r.downloaded, 1 + r.fetchCount⟩

def downloadOneFolder (fetch : Nat → Bool × Nat) (members : List FolderMember) :
    FolderRes :=
  downloadOneFolderGo fetch members 0

/-! ### fetch_myrient_index (CanFixDAT.py lines 1572-1600) and
DownloadWorker._fetch_myrient_index (lines 2911-2949)

The HTTP request is abstracted to its outcome; a successful response carries
the entries parsed from its body. -/

inductive HttpOut where
  | ok (files : List MEntry)
  | timeoutErr
  | connectionErr
  | httpErr (status : Nat)
  | otherErr
  deriving DecidableEq

inductive FetchErrKind where
  | notFound404
  | timeoutKind
  | connectionKind
  | httpKind
  | errorKind
  deriving DecidableEq

/-- `fetch_myrient_index`: classifies the request outcome into the
distinguished error strings `'404' | 'timeout' | 'connection' | 'http' |
'error'`, returning `(files, None)` on success. -/
def fetchMyrientIndex : HttpOut → Option (List MEntry) × Option FetchErrKind
  | .ok files => (some files, none)
  | .timeoutErr => (none, some .timeoutKind)
  | .connectionErr => (none, some .connectionKind)
  | .httpErr status => (none, some (if status = 404 then .notFound404 else .httpKind))
  | .otherErr => (none, some .errorKind)

/-- `DownloadWorker._fetch_myrient_index`: one fetch; only on the `'404'` kind
the operator is asked for a corrected URL and, when a non-blank one is given,
the fetch is retried exactly once with it; any falsy final index (including an
empty listing) is a hard failure for the run.  The second result component
counts fetch attempts. -/
def workerFetchMyrientIndex (first : HttpOut) (override : Option String)
    (secondFetch : String → HttpOut) : Option (List MEntry) × Nat :=
  let r1 := fetchMyrientIndex first
  let ra :=
    if r1.2 = some .notFound404 then
      match override with
      | some u =>
          if pyStrip u = "" then (r1, 1)
          else (fetchMyrientIndex (secondFetch (pyStrip u)), 2)
      | none => (r1, 1)
    else (r1, 1)
  (match ra.1.1 with
   | some files => if files = [] then none else some files
   | none => none,
   ra.2)

/-! ### DownloadWorker._flatten_single_new_nested_dir (CanFixDAT.py lines
2467-2497)

The extraction target directory is modelled as a list of entries, each a path
relative to the target directory (a nonempty list of name segments) plus a
directory flag; length-1 paths are the top-level entries `output_dir.iterdir()`
sees, and `[a, c]` paths are the direct children of top-level directory `a`. -/

structure PathEnt where
  path : List String
  is_dir : Bool
  deriving DecidableEq

def entName (e : PathEnt) : String := e.path.headD ""

/-- Top-level entries whose names are not in `pre_names` (the `new_entries`
list of line 2474). -/
def topNewEntries (pre : List String) (fs : List PathEnt) : List PathEnt :=
  (fs.filter (fun e => e.path.length = 1)).filter (fun e => !(pre.contains (entName e)))

/-- `new_dirs` (line 2475). -/
def newTopDirs (pre : List String) (fs : List PathEnt) : List PathEnt :=
  (topNewEntries pre fs).filter (fun e => e.is_dir)

/-- `new_files` (line 2476). -/
def newTopFiles (pre : List String) (fs : List PathEnt) : List PathEnt :=
  (topNewEntries pre fs).filter (fun e => !e.is_dir)

/-- `nested.iterdir()` (line 2483): names of the direct children of the
top-level directory `nname`. -/
def nestedChildren (fs : List PathEnt) (nname : String) : List String :=
  fs.filterMap (fun e =>
    match e.path with
    | [a, c] => if a = nname then some c else none
    | _ => none)

structure FlatRes where
  ok : Bool
  moved : Nat
  deriving DecidableEq

/-- `_flatten_single_new_nested_dir`: fires only when exactly one new
top-level directory and zero new top-level files appeared; aborts before
moving anything if any child name collides with an existing entry of the
target directory; otherwise moves every child (with its subtree) up one level
and removes the emptied directory. -/
def flattenSingleNewNestedDir (pre : List String) (fs : List PathEnt) :
    FlatRes × List PathEnt :=
  match newTopDirs pre fs, newTopFiles pre fs with
  | [nested], [] =>
      let nname := entName nested
      let children := nestedChildren fs nname
      if children.any (fun c => fs.any (fun e => e.path = [c])) then
        (⟨false, 0⟩, fs)
      else
        (⟨true, children.length⟩,
          (fs.filter (fun e => e.path ≠ [nname])).map (fun e =>
            match e.path with
            | a :: rest =>
                if a = nname ∧ rest ≠ [] then { e with path := rest } else e
            | [] => e))
  | _, _ => (⟨true, 0⟩, fs)

/-! ### Size-cell parsing in _parse_myrient_listing_html (CanFixDAT.py lines
1425-1437) and SIZE_MULTIPLIERS (lines 142-149)

The regex `^\s*([\d.]+)\s*([KMGT]?I?B)\s*$` (case-insensitive) is embedded
directly; Python's `float()` on a digits-and-dots literal is modelled exactly
over `ℚ` (the source values are small enough that IEEE doubles are exact on
every integral input used below), and `int()` on a nonnegative value is the
floor. -/

def SIZE_MULTIPLIERS : List (String × Nat) :=
  [("B", 1),
   ("K", 1024), ("KB", 1024),
   ("M", 1024 ^ 2), ("MB", 1024 ^ 2), ("MIB", 1024 ^ 2),
   ("G", 1024 ^ 3), ("GB", 1024 ^ 3), ("GIB", 1024 ^ 3),
   ("T", 1024 ^ 4), ("TB", 1024 ^ 4), ("TIB", 1024 ^ 4)]

/-- `SIZE_MULTIPLIERS[unit]` with `unit in SIZE_MULTIPLIERS` membership. -/
def lookupMultiplier (u : String) : Option Nat :=
  (SIZE_MULTIPLIERS.find? (fun p => p.1 == u)).map Prod.snd

def isDigitOrDot (c : Char) : Bool :=
  c.isDigit || c = '.'

/-- The `([KMGT]?I?B)` group, matched case-insensitively. -/
def sizeUnitPat (u : List Char) : Bool :=
  match u.map Char.toUpper with
  | ['B'] => true
  | ['I', 'B'] => true
  | [x, 'B'] => x = 'K' || x = 'M' || x = 'G' || x = 'T'
  | [x, 'I', 'B'] => x = 'K' || x = 'M' || x = 'G' || x = 'T'
  | _ => false

/-- `re.match(r"^\s*([\d.]+)\s*([KMGT]?I?B)\s*$", cell_text, re.IGNORECASE)`:
returns the number group and the upper-cased unit group. -/
def matchSizeCell (cell : String) : Option (List Char × String) :=
  let cs1 := cell.data.dropWhile isSpaceChar
  let num := cs1.takeWhile isDigitOrDot
  let cs2 := cs1.dropWhile isDigitOrDot
  let cs3 := cs2.dropWhile isSpaceChar
  let unit := cs3.takeWhile (fun c => !isSpaceChar c)
  let cs4 := cs3.dropWhile (fun c => !isSpaceChar c)
  if !num.isEmpty && cs4.all isSpaceChar && sizeUnitPat unit then
    some (num, String.mk (unit.map Char.toUpper))
  else none

def digitsVal (cs : List Char) : Nat :=
  cs.foldl (fun a c => 10 * a + (c.toNat - 48)) 0

/-- `int(float(num) * mult)` on a `[\d.]+` literal, computed exactly: with
`num = ip + fp / 10^k` the truncation of `num * mult` is
`((ip * 10^k + fp) * mult) / 10^k` in natural division.  `none` models the
`ValueError` `float()` raises on inputs like `"."` or `"1..2"`. -/
def pyFloatTimesFloor (cs : List Char) (mult : Nat) : Option Nat :=
  if cs.isEmpty then none
  else
    let dots := cs.countP (fun c => c == '.')
    if dots = 0 then some (digitsVal cs * mult)
    else if dots = 1 then
      let ip := cs.takeWhile (· != '.')
      let fp := (cs.dropWhile (· != '.')).drop 1
      if ip.isEmpty && fp.isEmpty then none
      else some ((digitsVal ip * 10 ^ fp.length + digitsVal fp) * mult / 10 ^ fp.length)
    else none

/-- One size cell of a table row: `some v` when this cell matches the regex
AND its unit is a key of `SIZE_MULTIPLIERS` (the `break` case of line 1437);
`none` when the loop would move on to the next cell leaving `size_bytes`
untouched. -/
def cellSizeBytes (cell : String) : Option Nat :=
  match matchSizeCell cell with
  | none => none
  | some (num, unit) =>
      match lookupMultiplier unit with
      | none => none
      | some mult => pyFloatTimesFloor num mult

/-- The `for cell in cells` loop of lines 1428-1437: the first cell that
matches with a known unit sets `size_bytes`; otherwise it stays 0. -/
def rowSizeBytes (cells : List String) : Nat :=
  (cells.findSome? cellSizeBytes).getD 0

/-- `size_bytes` for one parsed row: folders skip the size scan entirely
(line 1427) and keep 0. -/
def entrySizeBytes (is_folder : Bool) (cells : List String) : Nat :=
  if is_folder then 0 else rowSizeBytes cells

/-! ### parse_fixdat outcome classification (CanFixDAT.py lines 1843-1943) and
DownloadWorker._identify_missing_games (lines 2869-2909)

The XML document is abstracted to its parse outcome: a well-formed document
carrying its extracted game list, or one of the three terminal conditions
`ET.ParseError` / `FileNotFoundError` / `PermissionError`. -/

inductive FixdatDoc where
  | wellFormed (games : List GameRow)
  | malformed
  | missingFile
  | unreadable
  deriving DecidableEq

/-- `parse_fixdat`: `None` on the three terminal errors, the (possibly empty)
game list otherwise. -/
def parseFixdat : FixdatDoc → Option (List GameRow)
  | .wellFormed gs => some gs
  | .malformed => none
  | .missingFile => none
  | .unreadable => none

structure IdentifyOut where
  games : Option (List GameRow)
  errorMsg : Option String
  statusMsg : Option String
  deriving DecidableEq

def ERROR_MISSING_FIXDAT : String := "No games found in fixdat."

/-- `DownloadWorker._identify_missing_games`: without a manual fixdat the IGIR
report is consulted and a falsy result is the non-error status
`Collection is complete!`; with a manual fixdat, `parse_fixdat` is called and
any falsy result — a parse failure or a successfully parsed empty list alike —
emits the `ERROR_MISSING_FIXDAT` error signal. -/
def identifyMissingGames (hasManualFixdat : Bool) (igirGames : Option (List GameRow))
    (fixdat : FixdatDoc) : IdentifyOut :=
  if hasManualFixdat then
    match parseFixdat fixdat with
    | some gs =>
        if gs = [] then ⟨none, some ERROR_MISSING_FIXDAT, none⟩
        else ⟨some gs, none, none⟩
    | none => ⟨none, some ERROR_MISSING_FIXDAT, none⟩
  else
    match igirGames with
    | some gs =>
        if gs = [] then ⟨none, none, some "Collection is complete!"⟩
        else ⟨some gs, none, none⟩
    | none => ⟨none, none, some "Collection is complete!"⟩

/-! ### execute_plan (esde_rom_formatter_core.py lines 386-429)

The filesystem is an association list from paths (segment lists) to opaque
string contents; only files are tracked (`mkdir` has no observable effect
here).  `shutil.move` on a missing source raises, modelled as `none`. -/

def fsGet (fs : List (List String × String)) (p : List String) : Option String :=
  (fs.find? (fun e => e.1 = p)).map Prod.snd

def fsErase (fs : List (List String × String)) (p : List String) :
    List (List String × String) :=
  fs.filter (fun e => e.1 ≠ p)

def fsSet (fs : List (List String × String)) (p : List String) (v : String) :
    List (List String × String) :=
  (p, v) :: fsErase fs p

structure DiscFile where
  path : List String
  group_name : String
  disc_index : Nat
  deriving DecidableEq

/-- The source `Plan` dataclass. -/
structure GroupPlan where
  group_name : String
  source_parent : List String
  members : List DiscFile
  deriving DecidableEq

def folderName (p : GroupPlan) : String := p.group_name ++ ".m3u"

def folderPath (p : GroupPlan) : List String := p.source_parent ++ [folderName p]

def playlistPath (p : GroupPlan) : List String := folderPath p ++ [folderName p]

/-- `Path.name`: the final path segment. -/
def pathName (p : List String) : String := p.getLastD ""

/-- The member-move loop of `execute_plan` (lines 395-415): a member already
at its destination, or whose destination name is taken, is skipped and
counted; otherwise the file moves into the group folder. -/
def executeMovesGo (folder : List String) :
    List DiscFile → List (List String × String) → Nat → Nat →
    Option (Nat × Nat × List (List String × String))
  | [], fs, moved, skipped => some (moved, skipped, fs)
  | m :: rest, fs, moved, skipped =>
      let src := m.path
      let dest := folder ++ [pathName src]
      if src = dest then
        executeMovesGo folder rest fs moved (skipped + 1)
      else if (fsGet fs dest).isSome then
        executeMovesGo folder rest fs moved (skipped + 1)
      else
        match fsGet fs src with
        | some c =>
            executeMovesGo folder rest (fsSet (fsErase fs src) dest c)
              (moved + 1) skipped
        | none => none

/-- `Path.suffix` of pathlib: the final dot-extension, empty for names with no
dot, a leading dot only, or a trailing dot. -/
def suffixOf (name : String) : String :=
  let r := name.data.reverse
  let tl := r.takeWhile (· != '.')
  if tl.length = 0 ∨ tl.length = r.length ∨ tl.length + 1 = r.length then ""
  else String.mk ('.' :: tl.reverse)

def strLower (s : String) : String :=
  String.mk (s.data.map Char.toLower)

def charListLe : List Char → List Char → Bool
  | [], _ => true
  | _ :: _, [] => false
  | a :: as, b :: bs => if a = b then charListLe as bs else decide (a.toNat < b.toNat)

/-- Python string `<=` on the lowercased names (`key=lambda p: p.name.lower()`). -/
def lowerLeB (a b : String) : Bool :=
  charListLe (strLower a).data (strLower b).data

/-- Stable insertion into a sorted list (Python's `sorted` is stable). -/
def insOrd {α : Type} (le : α → α → Bool) (x : α) : List α → List α
  | [] => [x]
  | y :: ys => if le x y then x :: y :: ys else y :: insOrd le x ys

def sortOrd {α : Type} (le : α → α → Bool) : List α → List α
  | [] => []
  | x :: xs => insOrd le x (sortOrd le xs)

def SIDECAR_EXTENSIONS : List String :=
  [".ape", ".bin", ".ecm", ".flac", ".sub", ".wav"]

def NON_ROM_EXTENSIONS : List String :=
  [".bak", ".bmp", ".db", ".gif", ".ini", ".jpeg", ".jpg", ".log", ".m3u",
   ".md5", ".nfo", ".pdf", ".png", ".sfv", ".sha1", ".sha256", ".txt",
   ".webp", ".xml"]

/-- `choose_playlist_entries` (lines 360-383): per disc index in ascending
order, prefer the first `.cue` (by lowercased name), then the first
non-sidecar non-ROM file, then the first non-ROM file; the entries are the
member names (relative to the group folder). -/
def choosePlaylistEntries (members : List DiscFile) : List String :=
  let discs := sortOrd (fun a b => a ≤ b) ((members.map DiscFile.disc_index).dedup)
  discs.flatMap (fun d =>
    let names := sortOrd lowerLeB
      ((members.filter (fun m => m.disc_index = d)).map (fun m => pathName m.path))
    match names.filter (fun n => strLower (suffixOf n) = ".cue") with
    | c :: _ => [c]
    | [] =>
        let launchable := names.filter (fun n =>
          !(SIDECAR_EXTENSIONS.contains (strLower (suffixOf n))) &&
          !(NON_ROM_EXTENSIONS.contains (strLower (suffixOf n))))
        let launchable2 :=
          if launchable.isEmpty then
            names.filter (fun n => !(NON_ROM_EXTENSIONS.contains (strLower (suffixOf n))))
          else launchable
        match launchable2 with
        | l :: _ => [l]
        | [] => [])

/-- `"\n".join(entries) + "\n"` (line 422). -/
def playlistText (entries : List String) : String :=
  String.intercalate "\n" entries ++ "\n"

/-- `execute_plan`: run the member-move loop, then — when any launchable
entries exist — write the playlist manifest at
`folder/<group>.m3u/<group>.m3u`, unconditionally overwriting that path. -/
def executePlan (plan : GroupPlan) (fs : List (List String × String)) :
    Option ((Nat × Nat) × List (List String × String)) :=
  match executeMovesGo (folderPath plan) plan.members fs 0 0 with
  | none => none
  | some (moved, skipped, fs1) =>
      let entries := choosePlaylistEntries plan.members
      if entries.isEmpty then some ((moved, skipped), fs1)
      else some ((moved, skipped), fsSet fs1 (playlistPath plan) (playlistText entries))

end CanFixDAT

namespace CanFixDAT

/-! ### First theorems -/

/-- Helper for C1: the chunk loop never publishes anything at the destination
before the final atomic replace, failure outcomes leave the destination in its
initial absent state with the temp file removed, and success publishes exactly
the accumulated body. -/
theorem dlGo_spec (stop : Nat → Bool) (evs : List DlEv) (i : Nat) (t : Nat) :
    (∀ s ∈ (dlGo stop evs i ⟨some t, none⟩).2.2,
        s.dest = none ∨ s.dest = some (t + dlTotalBytes evs)) ∧
    ((dlGo stop evs i ⟨some t, none⟩).1 ≠ .success →
        (dlGo stop evs i ⟨some t, none⟩).2.1.dest = none ∧
        (dlGo stop evs i ⟨some t, none⟩).2.1.temp = none) ∧
    ((dlGo stop evs i ⟨some t, none⟩).1 = .success →
        (dlGo stop evs i ⟨some t, none⟩).2.1 =
          ⟨none, some (t + dlTotalBytes evs)⟩) := by
  induction evs generalizing i t with
  | nil =>
      simp [dlGo, dlTotalBytes]
  | cons e rest ih =>
      cases e with
      | chunk n =>
          by_cases h : stop i = true
          · simp [dlGo, h]
          · have := ih (i + 1) (t + n)
            simp only [dlGo, h, Bool.false_eq_true, if_false, Option.getD_some] at *
            refine ⟨?_, ?_, ?_⟩
            · intro s hs
              rcases List.mem_cons.mp hs with rfl | hs
              · left; rfl
              · rcases this.1 s hs with h1 | h1
                · left; exact h1
                · right; rw [h1]; simp [dlTotalBytes]; ring_nf
            · intro hne
              exact this.2.1 hne
            · intro hsu
              rw [this.2.2 hsu]
              simp [dlTotalBytes]; ring_nf
      | netErr =>
          simp [dlGo]
      | fsErr =>
          simp [dlGo]

/-- C1: in `download_file`, run against an initially-absent destination, the
output is written to a temp file and only published by the final atomic
replace: every observable state has the destination either absent or holding
the complete body; a run that ends stopped (cancelled), in a network error or
in a filesystem error leaves the destination absent and the temp file removed;
a successful run leaves the full body at the destination and no temp file. -/
theorem c1_download_atomicity (stop : Nat → Bool) (evs : List DlEv) :
    (∀ s ∈ (downloadFile stop none evs).2.2,
        s.dest = none ∨ s.dest = some (dlTotalBytes evs)) ∧
    ((downloadFile stop none evs).1 ≠ .success →
        (downloadFile stop none evs).2.1.dest = none ∧
        (downloadFile stop none evs).2.1.temp = none) ∧
    ((downloadFile stop none evs).1 = .success →
        (downloadFile stop none evs).2.1 = ⟨none, some (dlTotalBytes evs)⟩) := by
  have h := dlGo_spec stop evs 0 0
  simp only [downloadFile]
  refine ⟨?_, ?_, ?_⟩
  · intro s hs
    rcases List.mem_cons.mp hs with rfl | hs
    · left; rfl
    · have := h.1 s hs
      simpa using this
  · intro hne
    have := h.2.1 (by simpa using hne)
    simpa using this
  · intro hsu
    have := h.2.2 (by simpa using hsu)
    simpa using this

/-- Helper: with the stop callback constantly false and a body consisting only
of chunks, the chunk loop runs to completion. -/
theorem dlGo_success_of_chunks (stop : Nat → Bool) (hstop : ∀ i, stop i = false)
    (evs : List DlEv) (hevs : ∀ e ∈ evs, ∃ n, e = DlEv.chunk n) (i : Nat) (st : DlState) :
    (dlGo stop evs i st).1 = .success := by
  induction evs generalizing i st with
  | nil => simp [dlGo]
  | cons e rest ih =>
      rcases hevs e (List.mem_cons_self e rest) with ⟨n, rfl⟩
      have hrest : ∀ e ∈ rest, ∃ n, e = DlEv.chunk n :=
        fun e he => hevs e (List.mem_cons_of_mem _ he)
      simp [dlGo, hstop i, ih hrest]

/-- C2: two-tier cancellation.  (1) Once the cooperative stop flag is set, the
task-submission guard of `_download_with_gui_updates` refuses every new
submission.  (2) `request_force_stop` sets both flags and is idempotent.
(3) With only the cooperative flag set, the `should_stop` callback handed to
`download_file` stays false, so an in-flight transfer runs to completion and
publishes its full body.  (4) With the forced flag set, an in-flight transfer
is aborted at the very next chunk boundary, its temp output is discarded and
the destination stays absent.  (5) A conversion that does not finish before
the next process-wait poll is killed under forced stop and its output
discarded. -/
theorem c2_two_tier_cancellation :
    (∀ (w : WorkerFlags) (intr : Bool) (idx total active maxW : Nat),
        w.stopRequested = true →
        canSubmitNext w intr idx total active maxW = false) ∧
    (∀ w : WorkerFlags,
        (requestForceStop w).stopRequested = true ∧
        (requestForceStop w).forceStopRequested = true ∧
        requestForceStop (requestForceStop w) = requestForceStop w) ∧
    (∀ (w : WorkerFlags) (evs : List DlEv),
        w.forceStopRequested = false →
        (∀ e ∈ evs, ∃ n, e = DlEv.chunk n) →
        (downloadFile (fun _ => shouldStopSignal (requestStop w) false) none evs).1
            = .success ∧
        (downloadFile (fun _ => shouldStopSignal (requestStop w) false) none evs).2.1.dest
            = some (dlTotalBytes evs)) ∧
    (∀ (w : WorkerFlags) (n : Nat) (rest : List DlEv),
        (downloadFile (fun _ => shouldStopSignal (requestForceStop w) false) none
            (DlEv.chunk n :: rest)).1 = .stopped ∧
        (downloadFile (fun _ => shouldStopSignal (requestForceStop w) false) none
            (DlEv.chunk n :: rest)).2.1 = ⟨none, none⟩) ∧
    (∀ (conv : Nat → ConvOut) (m : Nat) (rest : List Nat),
        (conv m).finishesBeforePoll = false →
        runChdOneFile true conv (m :: rest) = (false, .absent)) := by
  refine ⟨?_, ?_, ?_, ?_, ?_⟩
  · intro w intr idx total active maxW h
    simp [canSubmitNext, h]
  · intro w
    exact ⟨rfl, rfl, rfl⟩
  · intro w evs hforce hevs
    have hstop : ∀ i : Nat,
        (fun _ : Nat => shouldStopSignal (requestStop w) false) i = false := by
      intro i
      simp [shouldStopSignal, requestStop, hforce]
    constructor
    · have := dlGo_success_of_chunks _ hstop evs hevs 0 ⟨some 0, none⟩
      simpa [downloadFile] using this
    · have hsu := dlGo_success_of_chunks _ hstop evs hevs 0 ⟨some 0, none⟩
      have h := (dlGo_spec (fun _ => shouldStopSignal (requestStop w) false) evs 0 0).2.2 hsu
      simp [downloadFile, h]
  · intro w n rest
    constructor <;> simp [downloadFile, dlGo, shouldStopSignal, requestForceStop]
  · intro conv m rest h
    simp [runChdOneFile, runChdFromState, h]

/-- Witness for C2 at concrete inputs. -/
theorem c2_two_tier_cancellation_witness :
    canSubmitNext ⟨true, false⟩ false 0 5 0 4 = false ∧
    (downloadFile (fun _ => shouldStopSignal (requestStop ⟨false, false⟩) false) none
        [DlEv.chunk 3, DlEv.chunk 4]).1 = .success ∧
    (downloadFile (fun _ => shouldStopSignal (requestForceStop ⟨false, false⟩) false) none
        [DlEv.chunk 3]).1 = .stopped ∧
    runChdOneFile true (fun _ => ⟨1, OutState.incompleteOut, false⟩) [0, 1]
        = (false, .absent) := by
  refine ⟨?_, ?_, ?_, ?_⟩
  · exact c2_two_tier_cancellation.1 ⟨true, false⟩ false 0 5 0 4 rfl
  · refine (c2_two_tier_cancellation.2.2.1 ⟨false, false⟩ [DlEv.chunk 3, DlEv.chunk 4]
        rfl ?_).1
    intro e he
    rcases List.mem_cons.mp he with rfl | he
    · exact ⟨3, rfl⟩
    rcases List.mem_cons.mp he with rfl | he
    · exact ⟨4, rfl⟩
    · cases he
  · exact (c2_two_tier_cancellation.2.2.2.1 ⟨false, false⟩ 3 []).1
  · exact c2_two_tier_cancellation.2.2.2.2 (fun _ => ⟨1, OutState.incompleteOut, false⟩)
      0 [1] rfl

/-- C7: the chdman fallback loop.  A file's conversion succeeds exactly when
some candidate mode's invocation exits with code zero and leaves the expected
output present; if every mode fails, no output remains; and in a two-mode run
where mode `a` fails and mode `b` succeeds, the loop ends successfully with
exactly mode `b`'s output on disk (mode `a`'s partial output was deleted
before `b` was attempted). -/
theorem c7_chd_conversion_fallback (conv : Nat → ConvOut) :
    (∀ c : ConvOut, chdSuccessCheck c = true ↔ (c.returncode = 0 ∧ c.out ≠ .absent)) ∧
    (∀ modes : List Nat,
        (runChdOneFile false conv modes).1 = true ↔
          ∃ m ∈ modes, chdSuccessCheck (conv m) = true) ∧
    (∀ modes : List Nat,
        (runChdOneFile false conv modes).1 = false →
        (runChdOneFile false conv modes).2 = .absent) ∧
    (∀ a b : Nat,
        chdSuccessCheck (conv a) = false → chdSuccessCheck (conv b) = true →
        runChdOneFile false conv [a, b] = (true, (conv b).out) ∧
        (conv b).returncode = 0 ∧ (conv b).out ≠ .absent) := by
  have hiff : ∀ (modes : List Nat) (cur : OutState),
      (runChdFromState false conv modes cur).1 = true ↔
        ∃ m ∈ modes, chdSuccessCheck (conv m) = true := by
    intro modes
    induction modes with
    | nil => intro cur; simp [runChdFromState]
    | cons m rest ih =>
        intro cur
        by_cases h : chdSuccessCheck (conv m) = true
        · simp [runChdFromState, h]
        · simp only [runChdFromState, Bool.and_false, Bool.false_eq_true, if_false, h,
            List.mem_cons]
          rw [ih .absent]
          constructor
          · rintro ⟨x, hx, hsx⟩
            exact ⟨x, Or.inr hx, hsx⟩
          · rintro ⟨x, hx | hx, hsx⟩
            · exact absurd hsx (by simpa [hx] using h)
            · exact ⟨x, hx, hsx⟩
  have habs : ∀ (modes : List Nat),
      (runChdFromState false conv modes .absent).1 = false →
      (runChdFromState false conv modes .absent).2 = .absent := by
    intro modes
    induction modes with
    | nil => intro _; simp [runChdFromState]
    | cons m rest ih =>
        intro hfail
        by_cases h : chdSuccessCheck (conv m) = true
        · simp [runChdFromState, h] at hfail
        · simp only [runChdFromState, Bool.and_false, Bool.false_eq_true, if_false, h] at *
          exact ih hfail
  refine ⟨?_, fun modes => hiff modes .absent, fun modes => habs modes, ?_⟩
  · intro c
    simp [chdSuccessCheck]
  · intro a b ha hb
    have hb2 : (conv b).returncode = 0 ∧ (conv b).out ≠ .absent := by
      simpa [chdSuccessCheck] using hb
    refine ⟨?_, hb2.1, hb2.2⟩
    simp [runChdOneFile, runChdFromState, ha, hb]

/-- Witness for C7 at concrete inputs: mode 0 exits nonzero leaving a partial
output, mode 1 succeeds. -/
theorem c7_chd_conversion_fallback_witness :
    runChdOneFile false
        (fun m => if m = 0 then ⟨1, OutState.incompleteOut, true⟩
                  else ⟨0, OutState.complete, true⟩) [0, 1]
      = (true, OutState.complete) := by
  have h := (c7_chd_conversion_fallback
      (fun m => if m = 0 then ⟨1, OutState.incompleteOut, true⟩
                else ⟨0, OutState.complete, true⟩)).2.2.2 0 1 (by decide) (by decide)
  exact h.1

/-- Helper: a binding that already holds a folder survives one `index_map`
iteration. -/
theorem indexStep_preserves (m : String → Option MEntry) (f : MEntry) (s : String)
    (e : MEntry) (hm : m s = some e) (hf : e.is_folder = true) :
    ∃ e2, indexStep m f s = some e2 ∧ e2.is_folder = true := by
  by_cases h1 : pyStrip f.filename = ""
  · exact ⟨e, by simp [indexStep, h1, hm], hf⟩
  cases hfol : f.is_folder with
  | true =>
      cases hms : m (pyStrip f.filename) with
      | none =>
          by_cases hs : s = pyStrip f.filename
          · rw [hs, hms] at hm; cases hm
          · exact ⟨e, by simp [indexStep, h1, hfol, hms, hs, hm], hf⟩
      | some ex =>
          by_cases hex : ex.is_folder = true
          · exact ⟨e, by simp [indexStep, h1, hfol, hms, hex, hm], hf⟩
          · by_cases hs : s = pyStrip f.filename
            · exfalso
              rw [hs, hms] at hm
              injection hm with h3
              rw [h3] at hex
              exact hex hf
            · exact ⟨e, by simp [indexStep, h1, hfol, hms, hex, hs, hm], hf⟩
  | false =>
      by_cases h2 : stripExt (pyStrip f.filename) = ""
      · exact ⟨e, by simp [indexStep, h1, hfol, h2, hm], hf⟩
      cases hms : m (stripExt (pyStrip f.filename)) with
      | none =>
          by_cases hs : s = stripExt (pyStrip f.filename)
          · rw [hs, hms] at hm; cases hm
          · exact ⟨e, by simp [indexStep, h1, hfol, h2, hms, hs, hm], hf⟩
      | some ex =>
          exact ⟨e, by simp [indexStep, h1, hfol, h2, hms, hm], hf⟩

/-- Helper: processing a folder entry installs a folder at its stem. -/
theorem indexStep_establishes (m : String → Option MEntry) (f : MEntry)
    (hf : f.is_folder = true) (hne : pyStrip f.filename ≠ "") :
    ∃ e2, indexStep m f (pyStrip f.filename) = some e2 ∧ e2.is_folder = true := by
  cases hms : m (pyStrip f.filename) with
  | none => exact ⟨f, by simp [indexStep, hne, hf, hms], hf⟩
  | some ex =>
      by_cases hex : ex.is_folder = true
      · exact ⟨ex, by simp [indexStep, hne, hf, hms, hex], hex⟩
      · exact ⟨f, by simp [indexStep, hne, hf, hms, hex], hf⟩

/-- Helper: the fold building `index_map` keeps a folder at key `s` as soon as
the accumulator holds one or the remaining entries contain one keyed at `s`. -/
theorem buildIndexMap_folder_aux (s : String) (hs : s ≠ "") (l : List MEntry)
    (m : String → Option MEntry)
    (h : (∃ e, m s = some e ∧ e.is_folder = true) ∨
         ∃ e ∈ l, e.is_folder = true ∧ pyStrip e.filename = s) :
    ∃ e2, (l.foldl indexStep m) s = some e2 ∧ e2.is_folder = true := by
  induction l generalizing m with
  | nil =>
      rcases h with h | ⟨e, he, _⟩
      · simpa using h
      · cases he
  | cons f rest ih =>
      simp only [List.foldl_cons]
      apply ih
      rcases h with ⟨e, hm, hf⟩ | ⟨e, he, hef, hes⟩
      · exact Or.inl (indexStep_preserves m f s e hm hf)
      · rcases List.mem_cons.mp he with rfl | he2
        · left
          rw [← hes]
          exact indexStep_establishes m e hef (by rw [hes]; exact hs)
        · exact Or.inr ⟨e, he2, hef, hes⟩

/-- C3: in the `index_map` built by `match_games_with_myrient`, a folder entry
keyed at stem `s` always ends up owning that key, whatever the order of the
listing (in particular a same-stem file never displaces it), and consequently
every matched game with display name `s` resolves to a folder. -/
theorem c3_folder_preferred (index : List MEntry) (s : String) (hs : s ≠ "")
    (hfold : ∃ e ∈ index, e.is_folder = true ∧ pyStrip e.filename = s) :
    (∃ e2, buildIndexMap index s = some e2 ∧ e2.is_folder = true) ∧
    (∀ (games : List GameRow) (res : List MatchedGame),
        matchGamesWithMyrient games index = some res →
        ∀ mg ∈ res, mg.gameName = s → mg.is_folder = true) := by
  have hmap : ∃ e2, buildIndexMap index s = some e2 ∧ e2.is_folder = true :=
    buildIndexMap_folder_aux s hs index (fun _ => none) (Or.inr hfold)
  refine ⟨hmap, ?_⟩
  intro games res hres mg hmg hname
  have hidx : index ≠ [] := by
    rcases hfold with ⟨e, he, _⟩
    intro hcon
    rw [hcon] at he
    cases he
  rw [matchGamesWithMyrient, if_neg hidx] at hres
  injection hres with hres
  rw [← hres] at hmg
  rcases List.mem_filterMap.mp hmg with ⟨g, _, hfn⟩
  by_cases hgn : pyStrip g.gameName = ""
  · simp [hgn] at hfn
  cases hb : buildIndexMap index (pyStrip g.gameName) with
  | none => simp [hgn, hb] at hfn
  | some best =>
      have hmgval : mg =
          ⟨pyStrip g.gameName, best.filename, best.url, best.size,
            g.rom, best.is_folder⟩ := by
        simp only [hgn, hb, if_false, Option.some.injEq] at hfn
        exact hfn.symm
      rw [hmgval] at hname ⊢
      have hname2 : pyStrip g.gameName = s := hname
      rw [hname2] at hb
      rcases hmap with ⟨e2, h2, hf2⟩
      have hbe : e2 = best := by
        have h3 := h2.symm.trans hb
        injection h3
      rw [← hbe]
      exact hf2

/-- Witness for C3: an index holding the file `Game.zip` and the folder
`Game` maps the stem `Game` to the folder. -/
theorem c3_folder_preferred_witness :
    ((buildIndexMap [⟨"Game.zip", "u1", 5, false⟩, ⟨"Game", "u2", 0, true⟩]
        "Game").getD ⟨"", "", 0, false⟩).is_folder = true := by
  obtain ⟨e2, he, hf⟩ :=
    (c3_folder_preferred [⟨"Game.zip", "u1", 5, false⟩, ⟨"Game", "u2", 0, true⟩]
      "Game" (by decide)
      ⟨⟨"Game", "u2", 0, true⟩, by simp, rfl, by decide⟩).1
  rw [he]
  exact hf

/-- Helper: a folder whose members all pre-exist performs no fetch and credits
the sum of the member sizes. -/
theorem downloadOneFolderGo_all_present (fetch : Nat → Bool × Nat)
    (members : List FolderMember) (h : ∀ m ∈ members, m.present = true) (i : Nat) :
    downloadOneFolderGo fetch members i =
      ⟨true, (members.map FolderMember.size).sum, 0⟩ := by
  induction members generalizing i with
  | nil => simp [downloadOneFolderGo]
  | cons m rest ih =>
      have hm := h m (List.mem_cons_self m rest)
      have hrest : ∀ x ∈ rest, x.present = true :=
        fun x hx => h x (List.mem_cons_of_mem _ hx)
      simp [downloadOneFolderGo, hm, ih hrest]

/-- Helper: the member loop fetches exactly the members that are not already
present. -/
theorem downloadOneFolderGo_fetchCount (fetch : Nat → Bool × Nat)
    (members : List FolderMember) (i : Nat) :
    (downloadOneFolderGo fetch members i).fetchCount =
      (members.filter (fun m => !m.present)).length := by
  induction members generalizing i with
  | nil => simp [downloadOneFolderGo]
  | cons m rest ih =>
      by_cases hm : m.present = true
      · simp [downloadOneFolderGo, hm, ih]
      · have hm2 : m.present = false := by simpa using hm
        simp [downloadOneFolderGo, hm2, ih]
        omega

/-- C4: skip-if-exists idempotency.  A single-file task whose destination
already exists performs no fetch, is counted as a skipped success and credits
the full expected size; in a folder task only the missing members are fetched,
and a folder whose members all pre-exist performs no fetch at all, succeeds,
and credits the sum of the member sizes. -/
theorem c4_idempotent_skip (fetch1 : Unit → Bool × Nat) (fetchN : Nat → Bool × Nat)
    (fileSize : Nat) (archivePresent : Bool) (members : List FolderMember) :
    downloadOneSingle true archivePresent fileSize fetch1
        = ⟨true, true, fileSize, 0⟩ ∧
    (downloadOneFolder fetchN members).fetchCount
        = (members.filter (fun m => !m.present)).length ∧
    ((∀ m ∈ members, m.present = true) →
        downloadOneFolder fetchN members
          = ⟨true, (members.map FolderMember.size).sum, 0⟩) := by
  refine ⟨rfl, downloadOneFolderGo_fetchCount fetchN members 0, ?_⟩
  intro h
  exact downloadOneFolderGo_all_present fetchN members h 0

/-- Witness for C4 at concrete inputs. -/
theorem c4_idempotent_skip_witness :
    downloadOneSingle true false 42 (fun _ => (true, 0)) = ⟨true, true, 42, 0⟩ ∧
    downloadOneFolder (fun _ => (true, 0)) [⟨true, 10⟩, ⟨true, 20⟩] = ⟨true, 30, 0⟩ := by
  have h := c4_idempotent_skip (fun _ => (true, 0)) (fun _ => (true, 0)) 42 false
      [⟨true, 10⟩, ⟨true, 20⟩]
  refine ⟨h.1, ?_⟩
  have h2 := h.2.2 (by decide)
  simpa using h2

/-- Helper: whenever `fetch_myrient_index` returns a distinguished error kind
it returns no file list. -/
theorem fetchMyrientIndex_none_of_kind (o : HttpOut) (k : FetchErrKind)
    (h : (fetchMyrientIndex o).2 = some k) : (fetchMyrientIndex o).1 = none := by
  cases o <;> simp_all [fetchMyrientIndex]

/-- C5: error-kind classification and the 404-retry discipline.  The fetch
classifies HTTP 404, timeout, connection failure, other HTTP errors and other
failures into distinguished kinds; the worker performs at most two fetch
attempts; a second attempt happens only when the first classified as 404 and
the operator supplied a non-blank corrected URL; any non-404 kind is never
retried and fails the run; and when the corrected URL also yields 404, the
run fails hard after exactly the one retry. -/
theorem c5_fetch_404_retry_once (first : HttpOut) (override : Option String)
    (secondFetch : String → HttpOut) :
    (fetchMyrientIndex (.httpErr 404) = (none, some .notFound404) ∧
     (∀ status : Nat, status ≠ 404 →
        fetchMyrientIndex (.httpErr status) = (none, some .httpKind)) ∧
     fetchMyrientIndex .timeoutErr = (none, some .timeoutKind) ∧
     fetchMyrientIndex .connectionErr = (none, some .connectionKind) ∧
     fetchMyrientIndex .otherErr = (none, some .errorKind)) ∧
    ((workerFetchMyrientIndex first override secondFetch).2 ≤ 2) ∧
    ((workerFetchMyrientIndex first override secondFetch).2 = 2 →
        (fetchMyrientIndex first).2 = some .notFound404 ∧
        ∃ u, override = some u ∧ pyStrip u ≠ "") ∧
    (∀ k : FetchErrKind, k ≠ .notFound404 →
        (fetchMyrientIndex first).2 = some k →
        workerFetchMyrientIndex first override secondFetch = (none, 1)) ∧
    (∀ u : String, override = some u → pyStrip u ≠ "" →
        (fetchMyrientIndex first).2 = some .notFound404 →
        (fetchMyrientIndex (secondFetch (pyStrip u))).2 = some .notFound404 →
        workerFetchMyrientIndex first override secondFetch = (none, 2)) := by
  refine ⟨⟨by simp [fetchMyrientIndex], ?_, rfl, rfl, rfl⟩, ?_, ?_, ?_, ?_⟩
  · intro status hst
    simp [fetchMyrientIndex, hst]
  · by_cases h1 : (fetchMyrientIndex first).2 = some .notFound404
    · cases override with
      | none =>
          cases h2 : (fetchMyrientIndex first).1 <;>
            simp [workerFetchMyrientIndex, h1, h2]
      | some u =>
          by_cases hu : pyStrip u = ""
          · cases h2 : (fetchMyrientIndex first).1 <;>
              simp [workerFetchMyrientIndex, h1, hu, h2]
          · cases h2 : (fetchMyrientIndex (secondFetch (pyStrip u))).1 <;>
              simp [workerFetchMyrientIndex, h1, hu, h2]
    · cases h2 : (fetchMyrientIndex first).1 <;>
        simp [workerFetchMyrientIndex, h1, h2]
  · intro h2
    by_cases h1 : (fetchMyrientIndex first).2 = some .notFound404
    · refine ⟨h1, ?_⟩
      cases override with
      | none => simp [workerFetchMyrientIndex, h1] at h2
      | some u =>
          by_cases hu : pyStrip u = ""
          · simp [workerFetchMyrientIndex, h1, hu] at h2
          · exact ⟨u, rfl, hu⟩
    · simp [workerFetchMyrientIndex, h1] at h2
  · intro k hk h1
    have hne : ¬ (fetchMyrientIndex first).2 = some .notFound404 := by
      rw [h1]
      intro hcon
      injection hcon with hcon
      exact hk hcon
    have hn := fetchMyrientIndex_none_of_kind first k h1
    simp [workerFetchMyrientIndex, hne, hn]
  · intro u hu hblank h1 h404
    have hn := fetchMyrientIndex_none_of_kind (secondFetch (pyStrip u)) _ h404
    subst hu
    simp [workerFetchMyrientIndex, h1, hblank, hn]

/-- Witness for C5 at concrete inputs: a timeout is never retried; a 404
followed by a 404 on the corrected URL fails after exactly two attempts. -/
theorem c5_fetch_404_retry_once_witness :
    workerFetchMyrientIndex HttpOut.timeoutErr (some "x") (fun _ => HttpOut.otherErr)
        = (none, 1) ∧
    workerFetchMyrientIndex (HttpOut.httpErr 404) (some "fixed")
        (fun _ => HttpOut.httpErr 404) = (none, 2) := by
  constructor
  · exact (c5_fetch_404_retry_once HttpOut.timeoutErr (some "x")
      (fun _ => HttpOut.otherErr)).2.2.2.1 FetchErrKind.timeoutKind (by decide) rfl
  · exact (c5_fetch_404_retry_once (HttpOut.httpErr 404) (some "fixed")
      (fun _ => HttpOut.httpErr 404)).2.2.2.2 "fixed" rfl (by decide) (by decide)
      (by decide)

/-- Helper: the sole new top-level directory found by the flatten heuristic is
an entry of the target directory with a one-segment path. -/
theorem newTopDirs_single (pre : List String) (fs : List PathEnt) (nested : PathEnt)
    (hd : newTopDirs pre fs = [nested]) :
    nested ∈ fs ∧ nested.path = [entName nested] := by
  have hmem : nested ∈ newTopDirs pre fs := by rw [hd]; exact List.mem_singleton_self nested
  rw [newTopDirs, topNewEntries] at hmem
  have h1 := List.mem_of_mem_filter hmem
  have h2 := List.mem_of_mem_filter h1
  have h3 := List.mem_of_mem_filter h2
  have hlen : nested.path.length = 1 := by
    have := (List.mem_filter.mp h2).2
    simpa using this
  refine ⟨h3, ?_⟩
  cases hp : nested.path with
  | nil => rw [hp] at hlen; cases hlen
  | cons a l =>
      cases l with
      | nil => simp [entName, hp]
      | cons b m => rw [hp] at hlen; simp at hlen

/-- C6: the post-extraction flatten heuristic.  It fires exactly when one new
top-level directory and zero new top-level files appeared; any child-name
collision aborts it before anything is moved, leaving the directory untouched;
otherwise every child of the nested directory moves up one level (with its
subtree), the emptied directory disappears, and unrelated entries are kept. -/
theorem c6_flatten_heuristic (pre : List String) (fs : List PathEnt) :
    (¬ (∃ nested, newTopDirs pre fs = [nested] ∧ newTopFiles pre fs = []) →
        flattenSingleNewNestedDir pre fs = (⟨true, 0⟩, fs)) ∧
    (∀ nested, newTopDirs pre fs = [nested] → newTopFiles pre fs = [] →
      ((∃ c ∈ nestedChildren fs (entName nested), ∃ e ∈ fs, e.path = [c]) →
          flattenSingleNewNestedDir pre fs = (⟨false, 0⟩, fs)) ∧
      ((∀ c ∈ nestedChildren fs (entName nested), ∀ e ∈ fs, e.path ≠ [c]) →
          (flattenSingleNewNestedDir pre fs).1
              = ⟨true, (nestedChildren fs (entName nested)).length⟩ ∧
          (∀ e ∈ fs, ∀ rest, e.path = entName nested :: rest → rest ≠ [] →
              ({ e with path := rest } : PathEnt)
                ∈ (flattenSingleNewNestedDir pre fs).2) ∧
          (∀ e2 ∈ (flattenSingleNewNestedDir pre fs).2,
              e2.path ≠ [entName nested]) ∧
          (∀ e ∈ fs, (∀ rest, e.path ≠ entName nested :: rest) →
              e ∈ (flattenSingleNewNestedDir pre fs).2))) := by
  constructor
  · intro hno
    cases hd : newTopDirs pre fs with
    | nil => simp [flattenSingleNewNestedDir, hd]
    | cons a l =>
        cases l with
        | nil =>
            cases hf : newTopFiles pre fs with
            | nil => exact absurd ⟨a, hd, hf⟩ hno
            | cons b m => simp [flattenSingleNewNestedDir, hd, hf]
        | cons a2 l2 => simp [flattenSingleNewNestedDir, hd]
  · intro nested hd hf
    have hcolBool : ∀ hcol : (nestedChildren fs (entName nested)).any
        (fun c => fs.any (fun e => e.path = [c])) = true,
        flattenSingleNewNestedDir pre fs = (⟨false, 0⟩, fs) := by
      intro hcol
      simp only [flattenSingleNewNestedDir, hd, hf, hcol, if_true]
    constructor
    · intro ⟨c, hc, e, he, hep⟩
      apply hcolBool
      rw [List.any_eq_true]
      refine ⟨c, hc, ?_⟩
      rw [List.any_eq_true]
      exact ⟨e, he, by simp [hep]⟩
    · intro hnc
      have hcol : (nestedChildren fs (entName nested)).any
          (fun c => fs.any (fun e => e.path = [c])) = false := by
        rw [List.any_eq_false]
        intro c hc
        rw [Bool.not_eq_true, List.any_eq_false]
        intro e he
        simpa using hnc c hc e he
      have hres : flattenSingleNewNestedDir pre fs =
          (⟨true, (nestedChildren fs (entName nested)).length⟩,
            (fs.filter (fun e => e.path ≠ [entName nested])).map (fun e =>
              match e.path with
              | a :: rest =>
                  if a = entName nested ∧ rest ≠ [] then { e with path := rest } else e
              | [] => e)) := by
        simp only [flattenSingleNewNestedDir, hd, hf, hcol, Bool.false_eq_true, if_false]
      obtain ⟨hnfs, hnpath⟩ := newTopDirs_single pre fs nested hd
      refine ⟨by rw [hres], ?_, ?_, ?_⟩
      · intro e he rest hep hrest
        rw [hres]
        apply List.mem_map.mpr
        refine ⟨e, ?_, ?_⟩
        · apply List.mem_filter.mpr
          refine ⟨he, ?_⟩
          simp only [decide_eq_true_eq]
          rw [hep]
          intro hcon
          injection hcon with _ hcon
          exact hrest hcon
        · rw [hep]
          simp [hrest]
      · intro e2 he2 hcon
        rw [hres] at he2
        rcases List.mem_map.mp he2 with ⟨e, hefil, heq⟩
        have hefs := List.mem_of_mem_filter hefil
        have hene : e.path ≠ [entName nested] := by
          have := (List.mem_filter.mp hefil).2
          simpa using this
        cases hp : e.path with
        | nil =>
            rw [hp] at heq
            simp only at heq
            rw [← heq] at hcon
            simp [hp] at hcon
        | cons a rest =>
            rw [hp] at heq
            simp only at heq
            by_cases hcond : a = entName nested ∧ rest ≠ []
            · rw [if_pos hcond] at heq
              rw [← heq] at hcon
              have hrest2 : rest = [entName nested] := hcon
              -- rest = [entName nested]: the nested dir had a child named like
              -- itself, which the collision scan would have caught
              have hchild : entName nested ∈ nestedChildren fs (entName nested) := by
                apply List.mem_filterMap.mpr
                refine ⟨e, hefs, ?_⟩
                rw [hp, hcond.1, hrest2]
                simp
              exact hnc (entName nested) hchild nested hnfs hnpath
            · rw [if_neg hcond] at heq
              rw [← heq] at hcon
              exact hene hcon
      · intro e he hnot
        rw [hres]
        apply List.mem_map.mpr
        refine ⟨e, ?_, ?_⟩
        · apply List.mem_filter.mpr
          refine ⟨he, ?_⟩
          simp only [decide_eq_true_eq]
          exact hnot []
        · cases hp : e.path with
          | nil => simp
          | cons a rest =>
              have : ¬ (a = entName nested ∧ rest ≠ []) := by
                intro ⟨h1, _⟩
                exact hnot rest (by rw [hp, h1])
              simp [this]

/-- Witness for C6: extraction produced the single wrapping directory `Wrap`
with two children next to a pre-existing `Game.zip`; the flatten fires, moves
both children up and removes `Wrap`. -/
theorem c6_flatten_heuristic_witness :
    (flattenSingleNewNestedDir ["Game.zip"]
        [⟨["Game.zip"], false⟩, ⟨["Wrap"], true⟩,
         ⟨["Wrap", "a.bin"], false⟩, ⟨["Wrap", "b.bin"], false⟩]).1
      = ⟨true, 2⟩ ∧
    (⟨["a.bin"], false⟩ : PathEnt) ∈
      (flattenSingleNewNestedDir ["Game.zip"]
        [⟨["Game.zip"], false⟩, ⟨["Wrap"], true⟩,
         ⟨["Wrap", "a.bin"], false⟩, ⟨["Wrap", "b.bin"], false⟩]).2 := by
  have h := (c6_flatten_heuristic ["Game.zip"]
      [⟨["Game.zip"], false⟩, ⟨["Wrap"], true⟩,
       ⟨["Wrap", "a.bin"], false⟩, ⟨["Wrap", "b.bin"], false⟩]).2
      ⟨["Wrap"], true⟩ (by decide) (by decide)
  have h2 := h.2 (by decide)
  constructor
  · exact h2.1
  · exact h2.2.1 ⟨["Wrap", "a.bin"], false⟩ (by decide) ["a.bin"] rfl (by decide)

/-- C8: size-cell parsing.  The binary suffixes MiB/GiB/TiB and the decimal
suffixes (and bare K/M/G/T letters with B) all scale by powers of 1024 as the
spec says, and a folder row keeps size 0 — but the binary suffix `KiB`
diverges: the regex accepts it, yet `SIZE_MULTIPLIERS` has no `KIB` key (it
has `MIB`, `GIB`, `TIB`), so a `KiB` cell contributes nothing and the row's
size stays 0 instead of number·1024. -/
theorem c8_size_cell_kib_divergence :
    entrySizeBytes false ["2 KiB"] = 0 ∧
    (2 * 1024 : Nat) ≠ 0 ∧
    entrySizeBytes false ["2 KB"] = 2 * 1024 ∧
    entrySizeBytes false ["2 kb"] = 2 * 1024 ∧
    entrySizeBytes false ["2 MiB"] = 2 * 1024 ^ 2 ∧
    entrySizeBytes false ["3 GiB"] = 3 * 1024 ^ 3 ∧
    entrySizeBytes false ["4 TiB"] = 4 * 1024 ^ 4 ∧
    entrySizeBytes false ["1.5 KB"] = 1536 ∧
    entrySizeBytes true ["2 KB"] = 0 ∧
    lookupMultiplier "KIB" = none ∧
    lookupMultiplier "MIB" = some (1024 ^ 2) := by
  decide

/-- C9 counterexample: a well-formed catalog with zero entries, fed through
the manual-fixdat path of `_identify_missing_games`, does emit an error
signal (`No games found in fixdat.`), contradicting the claim that no error
is reported for the empty, successfully parsed catalog. -/
theorem c9_empty_fixdat_counterexample :
    (identifyMissingGames true none (.wellFormed [])).errorMsg
        = some ERROR_MISSING_FIXDAT ∧
    (identifyMissingGames true none (.wellFormed [])).errorMsg ≠ none ∧
    (identifyMissingGames true none (.wellFormed [])).games = none := by
  decide

/-- C9 (amended): `parse_fixdat` does return the empty entry list as a value
distinct from the `None` of the three terminal parse errors, and the pipeline
is short-circuited on it; the IGIR-report path reports the empty missing set
as the non-error status `Collection is complete!`, but the manual-fixdat path
reports the empty parsed catalog through the error signal
`No games found in fixdat.`, conflating it with parse failure. -/
theorem c9_empty_catalog_outcome (gs : List GameRow) (fd : FixdatDoc)
    (ig : Option (List GameRow)) :
    (parseFixdat (.wellFormed []) = some [] ∧
     parseFixdat .malformed = none ∧
     parseFixdat .missingFile = none ∧
     parseFixdat .unreadable = none) ∧
    (identifyMissingGames false (some []) fd
        = ⟨none, none, some "Collection is complete!"⟩ ∧
     identifyMissingGames false none fd
        = ⟨none, none, some "Collection is complete!"⟩) ∧
    identifyMissingGames true ig (.wellFormed [])
        = ⟨none, some ERROR_MISSING_FIXDAT, none⟩ ∧
    (gs ≠ [] → identifyMissingGames true ig (.wellFormed gs)
        = ⟨some gs, none, none⟩) := by
  refine ⟨⟨rfl, rfl, rfl, rfl⟩, ⟨rfl, rfl⟩, rfl, ?_⟩
  intro h
  simp [identifyMissingGames, parseFixdat, h]

/-- Witness for the amended C9 at a concrete non-empty catalog. -/
theorem c9_empty_catalog_outcome_witness :
    identifyMissingGames true none (.wellFormed [⟨"Game A", "Game A.zip"⟩])
        = ⟨some [⟨"Game A", "Game A.zip"⟩], none, none⟩ :=
  (c9_empty_catalog_outcome [⟨"Game A", "Game A.zip"⟩] .malformed none).2.2.2
    (by decide)

/-- Helper: lookup after erasing a path. -/
theorem fsGet_fsErase (fs : List (List String × String)) (p q : List String) :
    fsGet (fsErase fs p) q = if q = p then none else fsGet fs q := by
  induction fs with
  | nil => simp [fsGet, fsErase]
  | cons e rest ih =>
      by_cases he : e.1 = p
      · have hstep : fsErase (e :: rest) p = fsErase rest p := by
          simp [fsErase, he]
        rw [hstep, ih]
        by_cases hq : q = p
        · simp [hq]
        · have hne : ¬ e.1 = q := by rw [he]; exact fun hc => hq hc.symm
          simp [hq, fsGet, List.find?, hne]
      · have hstep : fsErase (e :: rest) p = e :: fsErase rest p := by
          simp [fsErase, he]
        rw [hstep]
        by_cases heq : e.1 = q
        · have hq : ¬ q = p := by rw [← heq]; exact fun hc => he hc
          simp [fsGet, List.find?, heq, hq]
        · have h1 : fsGet (e :: fsErase rest p) q = fsGet (fsErase rest p) q := by
            simp [fsGet, List.find?, heq]
          have h2 : fsGet (e :: rest) q = fsGet rest q := by
            simp [fsGet, List.find?, heq]
          rw [h1, ih, h2]

/-- Helper: lookup after writing a path. -/
theorem fsGet_fsSet (fs : List (List String × String)) (p q : List String)
    (v : String) :
    fsGet (fsSet fs p v) q = if q = p then some v else fsGet fs q := by
  by_cases hq : q = p
  · subst hq
    simp [fsGet, fsSet, List.find?]
  · have hne : ¬ (p, v).1 = q := fun hc => hq hc.symm
    have h1 : fsGet (fsSet fs p v) q = fsGet (fsErase fs p) q := by
      simp [fsGet, fsSet, List.find?, hne]
    rw [h1, fsGet_fsErase]
    simp [hq]

/-- Helper: the last segment of a path extended by one name. -/
theorem pathName_append (l : List String) (x : String) :
    pathName (l ++ [x]) = x := by
  simp [pathName]

/-- Helper: the move loop never creates anything outside `folder ++ [name]`
paths; an absent path of a different shape stays absent. -/
theorem executeMovesGo_absent (folder : List String) (members : List DiscFile) :
    ∀ (fs : List (List String × String)) (moved skipped : Nat)
      (r : Nat × Nat × List (List String × String)),
      executeMovesGo folder members fs moved skipped = some r →
      ∀ p : List String, (∀ x, p ≠ folder ++ [x]) → fsGet fs p = none →
      fsGet r.2.2 p = none := by
  induction members with
  | nil =>
      intro fs moved skipped r hr p hshape hnone
      simp only [executeMovesGo, Option.some.injEq] at hr
      rw [← hr]
      exact hnone
  | cons m rest ih =>
      intro fs moved skipped r hr p hshape hnone
      rw [executeMovesGo] at hr
      by_cases h1 : m.path = folder ++ [pathName m.path]
      · rw [if_pos h1] at hr
        exact ih fs moved (skipped + 1) r hr p hshape hnone
      · rw [if_neg h1] at hr
        by_cases h2 : (fsGet fs (folder ++ [pathName m.path])).isSome
        · rw [if_pos h2] at hr
          exact ih fs moved (skipped + 1) r hr p hshape hnone
        · rw [if_neg h2] at hr
          cases hsrc : fsGet fs m.path with
          | none => rw [hsrc] at hr; cases hr
          | some c =>
              rw [hsrc] at hr
              apply ih _ _ _ _ hr p hshape
              rw [fsGet_fsSet, if_neg (hshape (pathName m.path)), fsGet_fsErase]
              by_cases hps : p = m.path
              · simp [hps]
              · simp [hps, hnone]

/-- Helper: the move loop never changes the stored value of a path that holds
a file both before and after (writes target only previously-free paths). -/
theorem executeMovesGo_no_overwrite (folder : List String) (members : List DiscFile) :
    ∀ (fs : List (List String × String)) (moved skipped : Nat)
      (r : Nat × Nat × List (List String × String)),
      executeMovesGo folder members fs moved skipped = some r →
      ∀ p v w, fsGet fs p = some v → fsGet r.2.2 p = some w → w = v := by
  induction members with
  | nil =>
      intro fs moved skipped r hr p v w hv hw
      simp only [executeMovesGo, Option.some.injEq] at hr
      rw [← hr] at hw
      rw [hv] at hw
      injection hw with hw
      exact hw.symm
  | cons m rest ih =>
      intro fs moved skipped r hr p v w hv hw
      rw [executeMovesGo] at hr
      by_cases h1 : m.path = folder ++ [pathName m.path]
      · rw [if_pos h1] at hr
        exact ih fs moved (skipped + 1) r hr p v w hv hw
      · rw [if_neg h1] at hr
        by_cases h2 : (fsGet fs (folder ++ [pathName m.path])).isSome
        · rw [if_pos h2] at hr
          exact ih fs moved (skipped + 1) r hr p v w hv hw
        · rw [if_neg h2] at hr
          cases hsrc : fsGet fs m.path with
          | none => rw [hsrc] at hr; cases hr
          | some c =>
              rw [hsrc] at hr
              by_cases hpd : p = folder ++ [pathName m.path]
              · rw [hpd] at hv
                rw [Option.not_isSome_iff_eq_none] at h2
                rw [h2] at hv
                cases hv
              · by_cases hps : p = m.path
                · -- the moved-away source: it can never be a later
                  -- destination, so it stays absent, contradicting hw
                  have hshape : ∀ x, p ≠ folder ++ [x] := by
                    intro x hc
                    apply h1
                    have hmp : m.path = folder ++ [x] := hps.symm.trans hc
                    rw [hmp, pathName_append]
                  have habs := executeMovesGo_absent folder rest _ _ _ _ hr p hshape ?_
                  · rw [habs] at hw; cases hw
                  · rw [fsGet_fsSet, if_neg hpd, fsGet_fsErase, if_pos hps]
                · have hstep : fsGet (fsSet (fsErase fs m.path)
                      (folder ++ [pathName m.path]) c) p = fsGet fs p := by
                    rw [fsGet_fsSet, if_neg hpd, fsGet_fsErase, if_neg hps]
                  apply ih _ _ _ _ hr p v w _ hw
                  rw [hstep]
                  exact hv

/-- Helper: each member contributes exactly one to moved + skipped. -/
theorem executeMovesGo_counts (folder : List String) (members : List DiscFile) :
    ∀ (fs : List (List String × String)) (moved skipped : Nat)
      (r : Nat × Nat × List (List String × String)),
      executeMovesGo folder members fs moved skipped = some r →
      r.1 + r.2.1 = moved + skipped + members.length := by
  induction members with
  | nil =>
      intro fs moved skipped r hr
      simp only [executeMovesGo, Option.some.injEq] at hr
      rw [← hr]
      simp
  | cons m rest ih =>
      intro fs moved skipped r hr
      rw [executeMovesGo] at hr
      by_cases h1 : m.path = folder ++ [pathName m.path]
      · rw [if_pos h1] at hr
        have := ih fs moved (skipped + 1) r hr
        simp only [List.length_cons]
        omega
      · rw [if_neg h1] at hr
        by_cases h2 : (fsGet fs (folder ++ [pathName m.path])).isSome
        · rw [if_pos h2] at hr
          have := ih fs moved (skipped + 1) r hr
          simp only [List.length_cons]
          omega
        · rw [if_neg h2] at hr
          cases hsrc : fsGet fs m.path with
          | none => rw [hsrc] at hr; cases hr
          | some c =>
              rw [hsrc] at hr
              have := ih _ (moved + 1) skipped r hr
              simp only [List.length_cons]
              omega

/-- Helper: when every member is already in place or has its destination name
taken, the loop moves nothing and leaves the filesystem untouched. -/
theorem executeMovesGo_all_taken (folder : List String) (members : List DiscFile) :
    ∀ (fs : List (List String × String)) (moved skipped : Nat),
      (∀ m ∈ members, m.path = folder ++ [pathName m.path] ∨
          (fsGet fs (folder ++ [pathName m.path])).isSome) →
      executeMovesGo folder members fs moved skipped
        = some (moved, skipped + members.length, fs) := by
  induction members with
  | nil =>
      intro fs moved skipped _
      simp [executeMovesGo]
  | cons m rest ih =>
      intro fs moved skipped h
      rw [executeMovesGo]
      have harith : skipped + 1 + rest.length = skipped + (rest.length + 1) := by omega
      rcases h m (List.mem_cons_self m rest) with h1 | h2
      · rw [if_pos h1]
        rw [ih fs moved (skipped + 1) (fun x hx => h x (List.mem_cons_of_mem _ hx))]
        simp only [List.length_cons]
        rw [harith]
      · by_cases h1 : m.path = folder ++ [pathName m.path]
        · rw [if_pos h1]
          rw [ih fs moved (skipped + 1) (fun x hx => h x (List.mem_cons_of_mem _ hx))]
          simp only [List.length_cons]
          rw [harith]
        · rw [if_neg h1, if_pos h2]
          rw [ih fs moved (skipped + 1) (fun x hx => h x (List.mem_cons_of_mem _ hx))]
          simp only [List.length_cons]
          rw [harith]

/-- C10 (amended): executing a grouping plan, the member-move loop never
overwrites or deletes a pre-existing file — any path other than the playlist
manifest that holds a file before and after execution holds the same content;
every member contributes exactly one to moved + skipped; and when every member
is already in place or has its destination name taken, nothing is moved and
every path outside the playlist manifest is untouched.  The playlist manifest
path `folder/<group>.m3u/<group>.m3u` is the one exception: it is rewritten
unconditionally when launchable entries exist. -/
theorem c10_plan_execution_frame (plan : GroupPlan)
    (fs : List (List String × String))
    (r : (Nat × Nat) × List (List String × String))
    (hex : executePlan plan fs = some r) :
    (∀ p v w, p ≠ playlistPath plan →
        fsGet fs p = some v → fsGet r.2 p = some w → w = v) ∧
    r.1.1 + r.1.2 = plan.members.length ∧
    ((∀ m ∈ plan.members,
        m.path = folderPath plan ++ [pathName m.path] ∨
        (fsGet fs (folderPath plan ++ [pathName m.path])).isSome) →
      r.1.1 = 0 ∧ ∀ p, p ≠ playlistPath plan → fsGet r.2 p = fsGet fs p) := by
  cases hmv : executeMovesGo (folderPath plan) plan.members fs 0 0 with
  | none =>
      simp only [executePlan, hmv] at hex
      exact Option.noConfusion hex
  | some t =>
      obtain ⟨moved, skipped, fs1⟩ := t
      simp only [executePlan, hmv] at hex
      by_cases hemp : (choosePlaylistEntries plan.members).isEmpty
      · rw [if_pos hemp] at hex
        injection hex with hex
        subst hex
        refine ⟨?_, ?_, ?_⟩
        · intro p v w _ hv hw
          exact executeMovesGo_no_overwrite _ _ _ _ _ _ hmv p v w hv hw
        · have := executeMovesGo_counts _ _ _ _ _ _ hmv
          simpa using this
        · intro hall
          have h2 := executeMovesGo_all_taken (folderPath plan) plan.members fs 0 0 hall
          rw [hmv] at h2
          injection h2 with h2
          injection h2 with hm h2
          injection h2 with hs hfs
          refine ⟨hm, ?_⟩
          intro p _
          rw [← hfs]
      · rw [if_neg hemp] at hex
        injection hex with hex
        subst hex
        refine ⟨?_, ?_, ?_⟩
        · intro p v w hne hv hw
          rw [fsGet_fsSet, if_neg hne] at hw
          exact executeMovesGo_no_overwrite _ _ _ _ _ _ hmv p v w hv hw
        · have := executeMovesGo_counts _ _ _ _ _ _ hmv
          simpa using this
        · intro hall
          have h2 := executeMovesGo_all_taken (folderPath plan) plan.members fs 0 0 hall
          rw [hmv] at h2
          injection h2 with h2
          injection h2 with hm h2
          injection h2 with hs hfs
          refine ⟨hm, ?_⟩
          intro p hne
          rw [fsGet_fsSet, if_neg hne, ← hfs]

/-- C10 counterexample: the original claim says plan execution never
overwrites a pre-existing file, but `execute_plan` unconditionally rewrites
the playlist manifest: here `roms/Game.m3u/Game.m3u` holds `OLD` beforehand
and holds the freshly generated playlist text afterwards. -/
theorem c10_playlist_overwrite_counterexample :
    fsGet [(["roms", "Game (Disc 1).cue"], "c1"),
           (["roms", "Game (Disc 2).cue"], "c2"),
           (["roms", "Game.m3u", "Game.m3u"], "OLD")]
        ["roms", "Game.m3u", "Game.m3u"] = some "OLD" ∧
    (executePlan
        ⟨"Game", ["roms"],
          [⟨["roms", "Game (Disc 1).cue"], "Game", 1⟩,
           ⟨["roms", "Game (Disc 2).cue"], "Game", 2⟩]⟩
        [(["roms", "Game (Disc 1).cue"], "c1"),
         (["roms", "Game (Disc 2).cue"], "c2"),
         (["roms", "Game.m3u", "Game.m3u"], "OLD")]).map
      (fun r => fsGet r.2 ["roms", "Game.m3u", "Game.m3u"])
        = some (some "Game (Disc 1).cue\nGame (Disc 2).cue\n") ∧
    ("Game (Disc 1).cue\nGame (Disc 2).cue\n" : String) ≠ "OLD" := by
  decide

/-- Witness for the amended C10: a plan whose single member is already in
place moves nothing and leaves the member file untouched. -/
theorem c10_plan_execution_frame_witness :
    fsGet [(["roms", "G.m3u", "G.m3u"], "A.cue\n"),
           (["roms", "G.m3u", "A.cue"], "c")] ["roms", "G.m3u", "A.cue"]
      = some "c" := by
  have hex : executePlan ⟨"G", ["roms"], [⟨["roms", "G.m3u", "A.cue"], "G", 1⟩]⟩
      [(["roms", "G.m3u", "A.cue"], "c")]
      = some ((0, 1), [(["roms", "G.m3u", "G.m3u"], "A.cue\n"),
                       (["roms", "G.m3u", "A.cue"], "c")]) := by decide
  have h := c10_plan_execution_frame _ _ _ hex
  have h3 := (h.2.2 (by decide)).2 ["roms", "G.m3u", "A.cue"] (by decide)
  rw [h3]
  decide

end CanFixDAT
